import Mathlib

/-!
Verification of the `BlockingQueue<T>` class from
`src/Cpp11-BlockingQueue/Cpp11-BlockingQueue.h`, a thread-safe FIFO queue
backed by `std::queue<T>`.

Embedding conventions:
- The underlying `std::queue<T>` member `q_` is a `List T` whose head is the
  front of the C++ queue (`q_.front()`), and whose last element is the back
  (`q_.push` appends).
- The mutex and condition variable serialize access; the sequential value
  semantics of each critical section is embedded as a pure function on the
  queue contents.
- `deQ` blocks when the queue is empty; in the sequential embedding a call
  that would block (and thus cannot return without a concurrent `enQ`) is
  `none`.  The blocking wait loop itself is modelled separately as an event
  step machine (`deqRun` below).
- `front()` throws `std::exception("attempt to access empty queue")` on an
  empty queue; this is modelled as `Except String T`.
- Move assignment begins with the aliasing test `if (this == &bq)`.  To model
  pointer identity, `moveAssign` acts on a memory of `n` queue objects
  addressed by `Fin n`; two addresses alias exactly when they are equal.
-/

/-- The `BlockingQueue<T>` object state that the lock protects: the
`std::queue<T> q_` member, as a list with the queue's front at the head. -/
structure BlockingQueue (T : Type) where
  q_ : List T
deriving Repr

theorem BlockingQueue.ext_q {T : Type} {a b : BlockingQueue T}
    (h : a.q_ = b.q_) : a = b := by
  cases a; cases b; cases h; rfl

/-- The default constructor `BlockingQueue() {}`: a freshly created queue is
empty. -/
def mkBlockingQueue {T : Type} : BlockingQueue T := ⟨[]⟩

/-- The pop-until-empty loop `while (q.size() > 0) q.pop();` used by the move
constructor, move assignment and `clear()`. -/
def popAll {T : Type} : List T → List T
  | [] => []
  | _ :: rest => popAll rest

/-- `enQ(T t)`: under the lock, `q_.push(std::move(t))` appends `t` to the
back of the queue (then `cv_.notify_one()` is issued, which has no effect on
the queue contents). -/
def enQ {T : Type} (bq : BlockingQueue T) (t : T) : BlockingQueue T :=
  ⟨bq.q_ ++ [t]⟩

/-- `deQ()`: if `q_.size() > 0` the front element is moved out and popped and
the call returns immediately; otherwise the caller waits on `cv_` and cannot
return without a concurrent `enQ` (modelled as `none`). -/
def deQ {T : Type} (bq : BlockingQueue T) : Option (T × BlockingQueue T) :=
  match bq.q_ with
  | [] => none
  | t :: rest => some (t, ⟨rest⟩)

/-- `front()`: under the lock, if `q_.size() > 0` return `q_.front()` without
popping; otherwise `throw std::exception("attempt to access empty queue")`. -/
def front {T : Type} (bq : BlockingQueue T) : Except String T :=
  match bq.q_ with
  | t :: _ => Except.ok t
  | [] => Except.error "attempt to access empty queue"

/-- `clear()`: under the lock, `while (q_.size() > 0) q_.pop();`. -/
def clear {T : Type} (bq : BlockingQueue T) : BlockingQueue T :=
  ⟨popAll bq.q_⟩

/-- `size()`: under the lock, return `q_.size()`. -/
def size {T : Type} (bq : BlockingQueue T) : Nat :=
  bq.q_.length

/-- The move constructor `BlockingQueue(BlockingQueue&& bq)`: the new object
does `q_ = bq.q_;` and then pops `bq.q_` empty.  Returns the pair (newly
constructed queue, state of the moved-from source afterwards). -/
def moveConstruct {T : Type} (bq : BlockingQueue T) :
    BlockingQueue T × BlockingQueue T :=
  (⟨bq.q_⟩, ⟨popAll bq.q_⟩)

/-- Move assignment `operator=(BlockingQueue&& bq)` over a memory of `n`
queue objects addressed by `Fin n`; `self` is the address of `*this` and
`src` the address of `bq`.  The body first tests `if (this == &bq) return
*this;`, then does `q_ = bq.q_;` and pops `bq.q_` empty. -/
def moveAssign {T : Type} {n : Nat} (mem : Fin n → BlockingQueue T)
    (self src : Fin n) : Fin n → BlockingQueue T :=
  if self = src then mem
  else
    let mem1 := Function.update mem self ⟨(mem src).q_⟩
    Function.update mem1 src ⟨popAll ((mem1 src).q_)⟩

/-- A sequence of `enQ` calls with no interleaved dequeues. -/
def enQAll {T : Type} (bq : BlockingQueue T) (vs : List T) : BlockingQueue T :=
  vs.foldl enQ bq

/-- A sequence of `n` `deQ` calls; `none` if any of them would block. -/
def deQAll {T : Type} (bq : BlockingQueue T) : Nat → Option (List T × BlockingQueue T)
  | 0 => some ([], bq)
  | Nat.succ k =>
    match deQ bq with
    | none => none
    | some (v, bq1) =>
      match deQAll bq1 k with
      | none => none
      | some (vs, bq2) => some (v :: vs, bq2)

theorem popAll_eq_nil {T : Type} (l : List T) : popAll l = [] := by
  induction l with
  | nil => rfl
  | cons x rest ih => simpa [popAll] using ih

theorem enQAll_q {T : Type} (vs : List T) (l : List T) :
    (enQAll ⟨l⟩ vs).q_ = l ++ vs := by
  induction vs generalizing l with
  | nil => simp [enQAll]
  | cons v rest ih =>
    simp only [enQAll, List.foldl_cons] at *
    rw [show enQ ⟨l⟩ v = ⟨l ++ [v]⟩ from rfl, ih]
    simp

theorem deQAll_append {T : Type} (vs rest : List T) :
    deQAll ⟨vs ++ rest⟩ vs.length = some (vs, ⟨rest⟩) := by
  induction vs with
  | nil => rfl
  | cons v tl ih =>
    simp only [List.length_cons, deQAll, deQ, List.cons_append]
    rw [ih]

/-- Events visible to a thread blocked inside `deQ` on the condition
variable: a wakeup not caused by an enqueue (spurious), or a concurrent
`enQ` (which pushes a value and then issues the `notify_one` wakeup). -/
inductive DeqEvent (T : Type) where
  | wake
  | enq (v : T)
deriving Repr, DecidableEq

/-- State of a thread executing `deQ`: still suspended inside the wait loop,
or returned with a value. -/
inductive ConsumerState (T : Type) where
  | waiting
  | done (v : T)
deriving Repr

/-- One evaluation of the wait predicate `q_.size() > 0` by the `deQ` body:
if the queue is empty the caller (re)suspends, otherwise it pops and returns
the front element.  This covers both the initial `if (q_.size() > 0)` test
and every re-check after a wakeup. -/
def deqCheck {T : Type} (q : List T) : List T × ConsumerState T :=
  match q with
  | [] => ([], ConsumerState.waiting)
  | v :: rest => (rest, ConsumerState.done v)

/-- Effect of one event on the queue and the consumer blocked in `deQ`: a
wakeup makes a waiting consumer re-check the predicate; an `enq` appends to
the queue and, via `notify_one`, wakes the waiting consumer.  Once `deQ`
has returned, later events only grow the queue. -/
def deqRunStep {T : Type} (s : List T × ConsumerState T) (e : DeqEvent T) :
    List T × ConsumerState T :=
  match s.2, e with
  | ConsumerState.done v, DeqEvent.enq w => (s.1 ++ [w], ConsumerState.done v)
  | ConsumerState.done _, DeqEvent.wake => s
  | ConsumerState.waiting, DeqEvent.wake => deqCheck s.1
  | ConsumerState.waiting, DeqEvent.enq w => deqCheck (s.1 ++ [w])

/-- A call to `deQ` on a queue holding `q0`, followed by the given sequence
of events. -/
def deqRun {T : Type} (q0 : List T) (events : List (DeqEvent T)) :
    List T × ConsumerState T :=
  events.foldl deqRunStep (deqCheck q0)

theorem deqRun_wakes {T : Type} (events : List (DeqEvent T))
    (h : ∀ e ∈ events, e = DeqEvent.wake) :
    deqRun ([] : List T) events = ([], ConsumerState.waiting) := by
  induction events with
  | nil => rfl
  | cons e rest ih =>
    have he : e = DeqEvent.wake := h e (List.mem_cons_self e rest)
    have hrest : ∀ x ∈ rest, x = DeqEvent.wake := fun x hx =>
      h x (List.mem_cons_of_mem e hx)
    have step : deqRunStep (deqCheck ([] : List T)) e
        = deqCheck ([] : List T) := by
      subst he; rfl
    calc deqRun ([] : List T) (e :: rest)
        = rest.foldl deqRunStep (deqRunStep (deqCheck ([] : List T)) e) := rfl
      _ = rest.foldl deqRunStep (deqCheck ([] : List T)) := by rw [step]
      _ = ([], ConsumerState.waiting) := ih hrest

/-- Concrete two-object memory used to exercise the move assignment model:
address 0 holds a queue with one stale element, address 1 holds ["x","y"]. -/
def demoMem : Fin 2 → BlockingQueue String :=
  fun i => if i.val = 0 then ⟨["old"]⟩ else ⟨["x", "y"]⟩

/-- C1: for every sequence of values v1..vn enqueued via `enQ` into a freshly
created queue with no interleaved dequeues, the n subsequent `deQ` calls all
succeed and return v1..vn in exactly that order (FIFO), leaving the queue
empty. -/
theorem fifo_order {T : Type} (vs : List T) :
    deQAll (enQAll (mkBlockingQueue : BlockingQueue T) vs) vs.length
      = some (vs, (mkBlockingQueue : BlockingQueue T)) := by
  have h1 : enQAll (mkBlockingQueue : BlockingQueue T) vs = ⟨vs⟩ := by
    apply BlockingQueue.ext_q
    simpa using enQAll_q vs ([] : List T)
  have h2 := deQAll_append vs ([] : List T)
  rw [h1]
  simpa using h2

/-- C2: `front` returns the `EmptyQueueError` if and only if the queue is
empty (it is a total function of the state, never blocking), and on a
non-empty queue it returns exactly the value the next `deQ` would return,
without removing it (`front` leaves the state untouched).  No other
operation returns this error: `enQ`, `deQ`, `clear` and `size` have
error-free result types in this embedding, matching the code, where only
`front` contains a throw. -/
theorem front_error_iff_empty {T : Type} (bq : BlockingQueue T) :
    ((∃ msg, front bq = Except.error msg) ↔ bq.q_ = []) ∧
    (∀ v bq1, deQ bq = some (v, bq1) → front bq = Except.ok v) := by
  cases bq with
  | mk q =>
    cases q with
    | nil =>
      constructor
      · constructor
        · intro _; rfl
        · intro _; exact ⟨"attempt to access empty queue", rfl⟩
      · intro v bq1 hcontra
        simp [deQ] at hcontra
    | cons t rest =>
      constructor
      · constructor
        · rintro ⟨msg, hmsg⟩
          simp [front] at hmsg
        · intro hnil; cases hnil
      · intro v bq1 hde
        simp only [deQ] at hde
        have hv : t = v := congrArg (fun p => p.1) (Option.some.inj hde)
        simp [front, hv]

/-- C2 witness: on the concrete queue [3], `deQ` returns 3 and `front`
agrees with it. -/
theorem front_error_iff_empty_witness :
    front (⟨[3]⟩ : BlockingQueue Nat) = Except.ok 3 :=
  (front_error_iff_empty (⟨[3]⟩ : BlockingQueue Nat)).2 3 ⟨[]⟩ rfl

/-- C3: move construction and move assignment transfer the source's entire
element sequence, in order, into the destination and leave the source empty:
the constructed queue's sequence equals the source's prior sequence, the
moved-from source has size 0, and for distinct objects `d ≠ s` move
assignment gives `d` exactly `s`'s prior sequence and leaves `s` with
size 0. -/
theorem move_transfers {T : Type} {n : Nat} (bq : BlockingQueue T)
    (mem : Fin n → BlockingQueue T) (d s : Fin n) (h : d ≠ s) :
    (moveConstruct bq).1.q_ = bq.q_ ∧
    size (moveConstruct bq).2 = 0 ∧
    (moveAssign mem d s d).q_ = (mem s).q_ ∧
    size (moveAssign mem d s s) = 0 := by
  refine ⟨rfl, ?_, ?_, ?_⟩
  · simp [moveConstruct, size, popAll_eq_nil]
  · simp only [moveAssign, if_neg h]
    rw [Function.update_noteq h, Function.update_same]
  · simp only [moveAssign, if_neg h]
    rw [Function.update_same]
    simp [size, popAll_eq_nil]

/-- C3 witness: with the source holding ["x","y"], move construction and the
move assignment `demoMem 0 = move(demoMem 1)` both transfer ["x","y"] and
empty the source. -/
theorem move_transfers_witness :
    (moveConstruct (⟨["x", "y"]⟩ : BlockingQueue String)).1.q_ = ["x", "y"] ∧
    size (moveConstruct (⟨["x", "y"]⟩ : BlockingQueue String)).2 = 0 ∧
    (moveAssign demoMem 0 1 0).q_ = (demoMem 1).q_ ∧
    size (moveAssign demoMem 0 1 1) = 0 :=
  move_transfers (⟨["x", "y"]⟩ : BlockingQueue String) demoMem 0 1 (by decide)

/-- C4: a `deQ` issued on an empty queue does not return while only spurious
wakeups occur — after any sequence of wake events with no enqueue the caller
is still suspended in the wait loop (so it blocks indefinitely if no producer
ever enqueues) — and as soon as a concurrent `enQ v` occurs the caller wakes,
re-validates the non-empty predicate, and returns `v`. -/
theorem deQ_blocks_until_enq {T : Type} (events : List (DeqEvent T))
    (h : ∀ e ∈ events, e = DeqEvent.wake) (v : T) :
    deqRun ([] : List T) events = ([], ConsumerState.waiting) ∧
    deqRun ([] : List T) (events ++ [DeqEvent.enq v])
      = ([], ConsumerState.done v) := by
  have h1 := deqRun_wakes events h
  refine ⟨h1, ?_⟩
  show (events ++ [DeqEvent.enq v]).foldl deqRunStep (deqCheck ([] : List T))
      = ([], ConsumerState.done v)
  rw [List.foldl_append]
  show deqRunStep (deqRun ([] : List T) events) (DeqEvent.enq v)
      = ([], ConsumerState.done v)
  rw [h1]
  rfl

/-- C4 witness: after two spurious wakeups on an empty queue the caller is
still waiting, and an enqueue of 7 then makes `deQ` return 7. -/
theorem deQ_blocks_until_enq_witness :
    deqRun ([] : List Nat) [DeqEvent.wake, DeqEvent.wake]
      = ([], ConsumerState.waiting) ∧
    deqRun ([] : List Nat)
        ([DeqEvent.wake, DeqEvent.wake] ++ [DeqEvent.enq 7])
      = ([], ConsumerState.done 7) :=
  deQ_blocks_until_enq [DeqEvent.wake, DeqEvent.wake] (by decide) 7

/-- C5: `clear` removes all elements for every reachable queue state:
afterwards `size` is 0 and a subsequent `deQ` finds no stale element (it
would block). -/
theorem clear_removes_all {T : Type} (bq : BlockingQueue T) :
    size (clear bq) = 0 ∧ deQ (clear bq) = none := by
  constructor
  · simp [clear, size, popAll_eq_nil]
  · simp [clear, deQ, popAll_eq_nil]

/-- C6: `size` returns the current element count: a freshly created queue
has size 0, an `enQ` onto the empty queue makes the size 1, and the
subsequent `deQ` returns that element and leaves the empty queue again
(size 0). -/
theorem size_counts {T : Type} (bq : BlockingQueue T) (v : T) :
    size bq = bq.q_.length ∧
    size (mkBlockingQueue : BlockingQueue T) = 0 ∧
    size (enQ (mkBlockingQueue : BlockingQueue T) v) = 1 ∧
    deQ (enQ (mkBlockingQueue : BlockingQueue T) v)
      = some (v, (mkBlockingQueue : BlockingQueue T)) :=
  ⟨rfl, rfl, rfl, rfl⟩

/-- C7: move assignment of a queue object onto itself is a no-op: for every
memory of queue objects and every address `i`, `moveAssign mem i i` leaves
the whole memory unchanged (the `this == &bq` guard returns immediately). -/
theorem moveAssign_self_noop {T : Type} {n : Nat}
    (mem : Fin n → BlockingQueue T) (i : Fin n) :
    moveAssign mem i i = mem := by
  simp [moveAssign]

/-- C8: move assignment discards the destination's prior contents: for every
memory, destination `d` and distinct source `s`, after the assignment the
sequence at `d` is exactly `s`'s prior sequence, so none of `d`'s previous
elements survive. -/
theorem moveAssign_discards_dest {T : Type} {n : Nat}
    (mem : Fin n → BlockingQueue T) (d s : Fin n) (h : d ≠ s) :
    moveAssign mem d s d = mem s := by
  simp only [moveAssign, if_neg h]
  rw [Function.update_noteq h, Function.update_same]

/-- C8 witness: with destination holding ["old"] and source holding
["x","y"], after the move assignment the destination holds exactly
["x","y"]: the stale element "old" is gone. -/
theorem moveAssign_discards_dest_witness :
    moveAssign demoMem 0 1 0 = (⟨["x", "y"]⟩ : BlockingQueue String) :=
  moveAssign_discards_dest demoMem 0 1 (by decide)

/-- C9: `deQ` on a non-empty queue removes exactly the front element: the
returned value is the head and the remaining elements keep their values and
relative order, with nothing else changed. -/
theorem deQ_pops_front {T : Type} (bq : BlockingQueue T) (v : T)
    (rest : List T) (h : bq.q_ = v :: rest) :
    deQ bq = some (v, ⟨rest⟩) := by
  cases bq with
  | mk q =>
    simp only at h
    subst h
    rfl

/-- C9 witness: `deQ` on [1,2,3] returns 1 and leaves [2,3]. -/
theorem deQ_pops_front_witness :
    deQ (⟨[1, 2, 3]⟩ : BlockingQueue Nat) = some (1, ⟨[2, 3]⟩) :=
  deQ_pops_front (⟨[1, 2, 3]⟩ : BlockingQueue Nat) 1 [2, 3] rfl

/-- C10: `clear` is total over queue states and idempotent: it is defined on
the empty queue (where it is a no-op), and clearing twice equals clearing
once — both yield the empty queue. -/
theorem clear_total_idempotent {T : Type} (bq : BlockingQueue T) :
    clear (clear bq) = clear bq ∧
    clear (mkBlockingQueue : BlockingQueue T) = mkBlockingQueue ∧
    (clear bq).q_ = [] := by
  refine ⟨?_, rfl, popAll_eq_nil bq.q_⟩
  apply BlockingQueue.ext_q
  simp [clear, popAll_eq_nil]
